import Mathlib

/-!
Shallow embedding of `src/quiz-utils.py`, a small interactive quiz library:
free-text questions (`Question`), multiple-choice questions
(`MultiChoiceQuestion`) with a per-call shuffled letter→option assignment and
an input-validation loop, and a quiz driver (`run_quiz`).

Modelling conventions:
  * standard input is a finite list of lines, threaded explicitly; an `ask`
    that needs a line when the list is exhausted yields `none`;
  * standard output is an explicit list of emitted strings;
  * Python's `random.shuffle(all_options)` is modelled by quantifying over an
    arbitrary permutation of the combined option list;
  * Python's `str.lower` is `lower`: per-character lowercasing, written
    directly over the string's character list so that it evaluates in the
    kernel; Python list membership (`in`) is `List.contains` (string
    equality);
  * the `dict` built by zipping letters with options is an association list
    (letter keys are pairwise distinct, so `List.lookup` is exactly dict
    indexing, and insertion order is the zip order);
  * `raise ValueError(msg)` is `Except.error msg`.
-/

namespace QuizUtils

/-- Python's `str.lower`: lowercase each character. -/
def lower (s : String) : String := ⟨s.data.map Char.toLower⟩

/-- `string.ascii_lowercase`, as the list of 26 one-letter strings that Python's
`list(ascii_lowercase)` produces. -/
def ascii_lowercase : List String :=
  "abcdefghijklmnopqrstuvwxyz".toList.map (fun c => String.singleton c)

/-- The fields of `class Question`. -/
structure Question where
  question : String
  answers : List String
deriving DecidableEq

/-- Result of one `ask` call: the lines printed, the returned score and the
input lines left unread. -/
structure AskOut where
  output : List String
  score : Nat
  rest : List String
deriving DecidableEq

/-- An `ask`-shaped operation: consumes input lines, produces printed output,
a score and the remaining input; `none` when input is exhausted mid-read. -/
abbrev Ask := List String → Option AskOut

/-- `Question.ask` (lines 24–35): print the question, read one line, compare
the lowercased input against the lowercased answers, print the verdict and
return 1 or 0. -/
def Question.ask (q : Question) : Ask := fun inputs =>
  match inputs with
  | [] => none
  | user_answer :: rest =>
    if (q.answers.map lower).contains (lower user_answer) then
      some ⟨[q.question, "Your answer: ", "Correct!"], 1, rest⟩
    else
      some ⟨[q.question, "Your answer: ", "Incorrect!"], 0, rest⟩

/-- The fields of `class MultiChoiceQuestion(Question)`: the inherited
`question` and `answers` plus `wrong_answers`. -/
structure MultiChoiceQuestion where
  question : String
  answers : List String
  wrong_answers : List String
deriving DecidableEq

/-- `MultiChoiceQuestion.__init__` (lines 43–62): raise `ValueError` when the
combined length of the answer lists exceeds 26, otherwise store the fields. -/
def MultiChoiceQuestion.init (question : String) (answers wrong_answers : List String) :
    Except String MultiChoiceQuestion :=
  if answers.length + wrong_answers.length > 26 then
    Except.error
      ("Combined length of correct and incorrect answer lists must be 26 or less. Total options received: "
        ++ toString (answers.length + wrong_answers.length))
  else
    Except.ok ⟨question, answers, wrong_answers⟩

/-- The letter→option dict built in `ask` (lines 71–74) from the shuffled
combined option list: `zip(list(ascii_lowercase), all_options)` as an
association list, in insertion order. -/
def option_list (all_options : List String) : List (String × String) :=
  ascii_lowercase.zip all_options

/-- One line `"<letter>) <option>"` per option (lines 79–82), in dict
insertion order. -/
def optionLines (ol : List (String × String)) : List String :=
  ol.map (fun kv => kv.1 ++ ") " ++ kv.2)

/-- The text printed before the validation loop (lines 76–85). -/
def full_question_text (question : String) (ol : List (String × String)) : String :=
  question ++ "\n" ++ String.intercalate "\n" (optionLines ol)

/-- One iteration of the input-validation loop body (lines 90–110), given the
current `valid_input` flag and the line read.  Returns the flag after the body
and `some score` when the body executes `return`.  Dict-key membership followed
by indexing (`user_answer.lower() in option_list.keys()` then
`option_list[user_answer.lower()]`) is association-list lookup. -/
def mcqIter (answers : List String) (ol : List (String × String)) (valid_input : Bool)
    (user_answer : String) : Bool × Option Nat :=
  match ol.lookup (lower user_answer) with
  | some selected =>
      (true, if answers.contains selected then some 1 else some 0)
  | none =>
      if ((ol.map Prod.snd).map lower).contains (lower user_answer) then
        (true, if (answers.map lower).contains (lower user_answer) then some 1 else some 0)
      else
        (valid_input, none)

/-- How a run of the `while not valid_input` loop on a finite input list ends:
a `return` from inside the body, the loop condition failing with no `return`
(control would then reach the dead lines 111–112), or input running out. -/
inductive LoopResult where
  | returned (score : Nat) (rest : List String)
  | exitedLoop (rest : List String)
  | outOfInput
deriving DecidableEq

/-- The `while not valid_input` loop (lines 87–110) over a finite list of
input lines. -/
def mcqLoop (answers : List String) (ol : List (String × String)) :
    Bool → List String → LoopResult
  | true, inputs => LoopResult.exitedLoop inputs
  | false, [] => LoopResult.outOfInput
  | false, user_answer :: rest =>
    match mcqIter answers ol false user_answer with
    | (_, some score) => LoopResult.returned score rest
    | (vi, none) => mcqLoop answers ol vi rest

/-- The loop of `run_quiz` (lines 138–142): for each question in order, print
the separator-framed header numbered `num` (that is, `i + first_question_num`),
call its `ask`, and accumulate `score += ask()`. -/
def runQuestions (questions : List Ask) (question_separator : String) (num : Int) (score : Nat)
    (inputs : List String) : List String × Option (Nat × List String) :=
  match questions with
  | [] => ([], some (score, inputs))
  | q :: qs =>
    let header := [question_separator, "Question " ++ toString num, question_separator]
    match q inputs with
    | none => (header, none)
    | some a =>
      let (out, r) := runQuestions qs question_separator (num + 1) (score + a.score) a.rest
      (header ++ a.output ++ out, r)

/-- `run_quiz` (lines 115–147): raise `ValueError` on an empty question list
before any I/O, otherwise run the loop from score 0 and finish with the
separator-framed final score line, returning the score.  The result is
(printed output, remaining input, error-or-score); the score is `none` inside
`ok` when input ran out mid-quiz. -/
def run_quiz (questions : List Ask) (score_per_question : Int) (question_separator : String)
    (first_question_num : Int) (inputs : List String) :
    List String × List String × Except String (Option Nat) :=
  if questions.length = 0 then
    ([], inputs, Except.error "A quiz needs to have questions!")
  else
    match runQuestions questions question_separator first_question_num 0 inputs with
    | (out, none) => (out, [], Except.ok none)
    | (out, some (score, rest)) =>
      (out ++ [question_separator, "Your score: " ++ toString score, question_separator],
        rest, Except.ok (some score))

/-- `RunsTo qs ins results rest`: asking the questions `qs` in order starting
from input `ins` makes every `ask` call succeed, producing the per-question
(output, score) pairs `results` and leaving `rest` unread. -/
inductive RunsTo : List Ask → List String → List (List String × Nat) → List String → Prop
  | nil (ins : List String) : RunsTo [] ins [] ins
  | cons (q : Ask) (qs : List Ask) (ins out : List String) (sc : Nat) (ins' : List String)
      (results : List (List String × Nat)) (rest : List String) :
      q ins = some ⟨out, sc, ins'⟩ → RunsTo qs ins' results rest →
      RunsTo (q :: qs) ins ((out, sc) :: results) rest

/-- Spec-side definition (the claim's words, for comparison with `run_quiz`):
the expected quiz transcript, one separator-framed header numbered
`index + first_question_num` followed by that question's own output, in
sequence order. -/
def specQuizOutput (question_separator : String) (num : Int)
    (results : List (List String × Nat)) : List String :=
  match results with
  | [] => []
  | (out, _) :: rs =>
    [question_separator, "Question " ++ toString num, question_separator] ++ out
      ++ specQuizOutput question_separator (num + 1) rs

/-- Spec-side definition (the claim's words): the plain sum of the per-question
ask results, with no `score_per_question` factor. -/
def specTotalScore (results : List (List String × Nat)) : Nat :=
  (results.map Prod.snd).sum

/-- A Python heap of list-of-string objects; a reference is an index. -/
abbrev Heap := List (List String)

/-- Dereference (out-of-range reads never occur in the modelled runs). -/
def heapGet (h : Heap) (r : Nat) : List String := h.getD r []

/-- Allocate a fresh list object, as Python's list `+` does. -/
def heapAlloc (h : Heap) (v : List String) : Heap × Nat := (h ++ [v], h.length)

/-- In-place update of one list object, as `random.shuffle` does. -/
def heapSet (h : Heap) (r : Nat) (v : List String) : Heap := h.set r v

/-- A `Question` object whose `answers` list lives on the heap. -/
structure QuestionObj where
  question : String
  answersRef : Nat

/-- A `MultiChoiceQuestion` object whose two list fields live on the heap. -/
structure MCQObj where
  question : String
  answersRef : Nat
  wrongAnswersRef : Nat

/-- `Question.ask` at heap level: it only reads `self.answers` (line 30) and
performs no list mutation, so the heap passes through unchanged. -/
def QuestionObj.ask (q : QuestionObj) (h : Heap) (inputs : List String) :
    Heap × Option AskOut :=
  (h, Question.ask ⟨q.question, heapGet h q.answersRef⟩ inputs)

/-- `MultiChoiceQuestion.ask` at heap level (lines 64–112):
`all_options = self.answers + self.wrong_answers` allocates a fresh list
(Python list `+`), `shuffle(all_options)` overwrites that fresh cell in place
with `shuffled` (some permutation of it), and the validation loop then runs on
the letter→option dict built from the shuffled cell. -/
def MCQObj.ask (q : MCQObj) (h : Heap) (shuffled : List String) (inputs : List String) :
    Heap × LoopResult :=
  let all_options := heapGet h q.answersRef ++ heapGet h q.wrongAnswersRef
  let alloc := heapAlloc h all_options
  let h2 := heapSet alloc.1 alloc.2 shuffled
  (h2, mcqLoop (heapGet h2 q.answersRef) (option_list (heapGet h2 alloc.2)) false inputs)

end QuizUtils

namespace QuizUtils

/-- C3: `Question.ask` on any input line returns score 1 (with "Correct!")
exactly when some stored answer equals the input up to lowercasing, otherwise
score 0 (with "Incorrect!"); with an empty answer list every input scores 0. -/
theorem question_ask_score_characterisation (q : Question) (ua : String) (rest : List String) :
    (Question.ask q (ua :: rest) = some ⟨[q.question, "Your answer: ", "Correct!"], 1, rest⟩
      ∨ Question.ask q (ua :: rest) = some ⟨[q.question, "Your answer: ", "Incorrect!"], 0, rest⟩)
    ∧ (Question.ask q (ua :: rest) = some ⟨[q.question, "Your answer: ", "Correct!"], 1, rest⟩
        ↔ ∃ a, a ∈ q.answers ∧ lower a = lower ua)
    ∧ (q.answers = []
        → Question.ask q (ua :: rest) = some ⟨[q.question, "Your answer: ", "Incorrect!"], 0, rest⟩) := by
  have hiff : (q.answers.map lower).contains (lower ua) = true
      ↔ ∃ a, a ∈ q.answers ∧ lower a = lower ua := by
    rw [List.contains_iff_exists_mem_beq]
    constructor
    · rintro ⟨x, hx, hbeq⟩
      obtain ⟨a, ha, rfl⟩ := List.mem_map.mp hx
      exact ⟨a, ha, (beq_iff_eq.mp hbeq).symm⟩
    · rintro ⟨a, ha, heq⟩
      exact ⟨lower a, List.mem_map_of_mem _ ha, beq_iff_eq.mpr heq.symm⟩
  by_cases hc : (q.answers.map lower).contains (lower ua)
  · refine ⟨Or.inl ?_, ?_, ?_⟩
    · simp only [Question.ask]
      rw [if_pos hc]
    · simp only [Question.ask]
      rw [if_pos hc]
      exact ⟨fun _ => hiff.mp hc, fun _ => rfl⟩
    · intro h
      rw [h] at hc
      simp at hc
  · refine ⟨Or.inr ?_, ?_, ?_⟩
    · simp only [Question.ask]
      rw [if_neg hc]
    · simp only [Question.ask]
      rw [if_neg hc]
      constructor
      · intro h
        simp at h
      · intro hex
        exact absurd (hiff.mpr hex) hc
    · intro h
      simp only [Question.ask]
      rw [if_neg hc]

/-- Closed instance of `question_ask_score_characterisation`: a question with
an empty answer list scores 0 on a concrete input. -/
theorem question_ask_score_characterisation_witness :
    Question.ask ⟨"2+2?", []⟩ ["4"] = some ⟨["2+2?", "Your answer: ", "Incorrect!"], 0, []⟩ :=
  (question_ask_score_characterisation ⟨"2+2?", []⟩ "4" []).2.2 rfl

/-- Case-insensitive membership, as both `ask` methods compute it: the
lowercased needle is contained in the element-wise lowered list exactly when
some element lowers to it. -/
theorem contains_map_lower_iff (l : List String) (s : String) :
    (l.map lower).contains s = true ↔ ∃ a, a ∈ l ∧ lower a = s := by
  rw [List.contains_iff_exists_mem_beq]
  constructor
  · rintro ⟨x, hx, hbeq⟩
    obtain ⟨a, ha, rfl⟩ := List.mem_map.mp hx
    exact ⟨a, ha, (beq_iff_eq.mp hbeq).symm⟩
  · rintro ⟨a, ha, heq⟩
    exact ⟨lower a, List.mem_map_of_mem _ ha, beq_iff_eq.mpr heq.symm⟩

/-- `List.contains` is plain membership on strings. -/
theorem contains_iff_mem (l : List String) (a : String) : l.contains a = true ↔ a ∈ l := by
  rw [List.contains_iff_exists_mem_beq]
  constructor
  · rintro ⟨x, hx, hbeq⟩
    rwa [beq_iff_eq.mp hbeq]
  · intro h
    exact ⟨a, h, beq_iff_eq.mpr rfl⟩

/-- C2: `MultiChoiceQuestion` construction raises exactly when the combined
length of the two answer lists exceeds 26, and for every combination of total
length at most 26 — empty lists included — it succeeds, storing the fields. -/
theorem mcq_init_characterisation (question : String) (answers wrong_answers : List String) :
    ((∃ msg, MultiChoiceQuestion.init question answers wrong_answers = Except.error msg)
      ↔ 26 < answers.length + wrong_answers.length)
    ∧ (answers.length + wrong_answers.length ≤ 26
      → MultiChoiceQuestion.init question answers wrong_answers
          = Except.ok ⟨question, answers, wrong_answers⟩) := by
  by_cases h : 26 < answers.length + wrong_answers.length
  · refine ⟨⟨fun _ => h, fun _ => ?_⟩, fun hle => absurd h (Nat.not_lt.mpr hle)⟩
    simp only [MultiChoiceQuestion.init]
    rw [if_pos h]
    exact ⟨_, rfl⟩
  · refine ⟨⟨?_, fun hgt => absurd hgt h⟩, fun _ => ?_⟩
    · rintro ⟨msg, hmsg⟩
      simp only [MultiChoiceQuestion.init] at hmsg
      rw [if_neg h] at hmsg
      exact Except.noConfusion hmsg
    · simp only [MultiChoiceQuestion.init]
      rw [if_neg h]

/-- Closed instance of `mcq_init_characterisation`: a two-option question is
constructed successfully. -/
theorem mcq_init_characterisation_witness :
    MultiChoiceQuestion.init "Pick A" ["Apple"] ["Banana"]
      = Except.ok ⟨"Pick A", ["Apple"], ["Banana"]⟩ :=
  (mcq_init_characterisation "Pick A" ["Apple"] ["Banana"]).2 (by decide)

/-- C4: `run_quiz` on an empty question list raises the configuration error
having printed nothing and consumed no input. -/
theorem run_quiz_empty_no_io (score_per_question : Int) (sep : String) (first : Int)
    (inputs : List String) :
    run_quiz [] score_per_question sep first inputs
      = ([], inputs, Except.error "A quiz needs to have questions!") :=
  rfl

/-- Zipping a longer list against a shorter one keeps exactly the first
`r.length` elements of the longer list as first components. -/
theorem map_fst_zip_eq_take {α β : Type} (r : List β) : ∀ (l : List α), r.length ≤ l.length →
    (l.zip r).map Prod.fst = l.take r.length := by
  induction r with
  | nil => intro l _; simp
  | cons b r ih =>
    intro l h
    cases l with
    | nil => simp at h
    | cons a l =>
      simp only [List.zip_cons_cons, List.map_cons, List.length_cons, List.take_succ_cons]
      rw [ih l (Nat.succ_le_succ_iff.mp (by simpa using h))]

/-- C6: for any valid `MultiChoiceQuestion` (at most 26 options) and any
shuffle outcome, the letter→option assignment has exactly one lettered entry
per option; its keys are the first `n` alphabet letters — so they start at
`"a"`, are consecutive with no gaps or repeats, and ascend — and the options
presented are exactly the shuffled combined list, in key order. -/
theorem mcq_option_assignment (mcq : MultiChoiceQuestion) (perm : List String)
    (hperm : perm.Perm (mcq.answers ++ mcq.wrong_answers))
    (hlen : mcq.answers.length + mcq.wrong_answers.length ≤ 26) :
    (option_list perm).length = mcq.answers.length + mcq.wrong_answers.length
    ∧ (option_list perm).map Prod.fst
        = ascii_lowercase.take (mcq.answers.length + mcq.wrong_answers.length)
    ∧ ((option_list perm).map Prod.fst).Nodup
    ∧ List.Pairwise (fun a b : String => a.data < b.data) ((option_list perm).map Prod.fst)
    ∧ (option_list perm).map Prod.snd = perm := by
  have hplen : perm.length = mcq.answers.length + mcq.wrong_answers.length := by
    simpa using hperm.length_eq
  have h26 : ascii_lowercase.length = 26 := rfl
  have hle : perm.length ≤ ascii_lowercase.length := by
    rw [hplen, h26]; exact hlen
  have hfst : (option_list perm).map Prod.fst = ascii_lowercase.take perm.length :=
    map_fst_zip_eq_take perm ascii_lowercase hle
  refine ⟨?_, ?_, ?_, ?_, ?_⟩
  · simp only [option_list, List.length_zip, h26]
    rw [Nat.min_eq_right (by rw [hplen]; exact hlen)]
    exact hplen
  · rw [hfst, hplen]
  · rw [hfst]
    exact List.Nodup.sublist (List.take_sublist _ _) (by decide)
  · rw [hfst]
    exact List.Pairwise.sublist (List.take_sublist _ _) (by decide)
  · exact List.map_snd_zip _ _ hle

/-- Closed instance of `mcq_option_assignment` for a two-option question and
one of its two shuffle outcomes. -/
theorem mcq_option_assignment_witness :
    (option_list ["Banana", "Apple"]).length = 2
    ∧ (option_list ["Banana", "Apple"]).map Prod.fst = ascii_lowercase.take 2
    ∧ ((option_list ["Banana", "Apple"]).map Prod.fst).Nodup
    ∧ List.Pairwise (fun a b : String => a.data < b.data)
        ((option_list ["Banana", "Apple"]).map Prod.fst)
    ∧ (option_list ["Banana", "Apple"]).map Prod.snd = ["Banana", "Apple"] :=
  mcq_option_assignment ⟨"Pick A", ["Apple"], ["Banana"]⟩ ["Banana", "Apple"]
    (by decide) (by decide)

/-- The quiz loop on a sequence of successful asks: headers count up from
`num` and the score accumulator ends at its start plus the plain sum of the
ask results. -/
theorem runQuestions_of_runsTo (sep : String) {questions : List Ask} {inputs : List String}
    {results : List (List String × Nat)} {rest : List String}
    (h : RunsTo questions inputs results rest) :
    ∀ (num : Int) (score : Nat),
      runQuestions questions sep num score inputs
        = (specQuizOutput sep num results, some (score + specTotalScore results, rest)) := by
  induction h with
  | nil ins =>
    intro num score
    simp [runQuestions, specQuizOutput, specTotalScore]
  | cons q qs ins out sc ins' results rest hq hrest ih =>
    intro num score
    simp only [runQuestions, hq]
    rw [ih (num + 1) (score + sc)]
    simp [specQuizOutput, specTotalScore, Nat.add_assoc]

/-- C5: on a non-empty question list whose asks all succeed, `run_quiz` asks
the questions strictly in sequence order with header numbers
`index + first_question_num`, returns the plain sum of the per-question ask
results — `score_per_question` does not occur on the right-hand side, so it is
inert — and the printed final score line shows that same returned total. -/
theorem run_quiz_characterisation (questions : List Ask) (score_per_question : Int)
    (sep : String) (first : Int) (inputs : List String)
    (results : List (List String × Nat)) (rest : List String)
    (hne : questions ≠ []) (hruns : RunsTo questions inputs results rest) :
    run_quiz questions score_per_question sep first inputs
      = (specQuizOutput sep first results
          ++ [sep, "Your score: " ++ toString (specTotalScore results), sep],
         rest, Except.ok (some (specTotalScore results))) := by
  have hlen : ¬ questions.length = 0 := fun h => hne (List.length_eq_zero.mp h)
  simp only [run_quiz]
  rw [if_neg hlen, runQuestions_of_runsTo sep hruns first 0]
  simp

/-- Closed instance of `run_quiz_characterisation`: a one-question quiz,
answered correctly, with `score_per_question = 5`, still returns 1 and prints
"Your score: 1". -/
theorem run_quiz_characterisation_witness :
    run_quiz [Question.ask ⟨"2+2?", ["4"]⟩] 5 "-" 1 ["4"]
      = (["-", "Question 1", "-", "2+2?", "Your answer: ", "Correct!", "-", "Your score: 1", "-"],
         [], Except.ok (some 1)) := by
  have h := run_quiz_characterisation [Question.ask ⟨"2+2?", ["4"]⟩] 5 "-" 1 ["4"]
    [(["2+2?", "Your answer: ", "Correct!"], 1)] [] (List.cons_ne_nil _ _)
    (RunsTo.cons _ _ _ _ _ _ _ _ (by decide) (RunsTo.nil []))
  exact h.trans rfl

/-- C7: when the lowercased input is simultaneously a letter key of the
assignment and (case-insensitively) the full text of some presented option,
the letter interpretation wins: the iteration sets `valid_input` and scores
the option that the letter maps to, not the text-matched option. -/
theorem mcq_letter_priority (answers : List String) (ol : List (String × String))
    (ua selected : String)
    (hletter : ol.lookup (lower ua) = some selected)
    (htext : ((ol.map Prod.snd).map lower).contains (lower ua) = true) :
    mcqIter answers ol false ua
      = (true, if answers.contains selected then some 1 else some 0) := by
  simp only [mcqIter, hletter]

/-- Closed instance of `mcq_letter_priority` where the two readings disagree:
`"a"` is both the letter of option `"z"` and the text of option `"a"`, an
exact correct answer; the letter reading is used and scores 0. -/
theorem mcq_letter_priority_witness :
    mcqIter ["a"] [("a", "z"), ("b", "a")] false "a" = (true, some 0) :=
  (mcq_letter_priority ["a"] [("a", "z"), ("b", "a")] "a" "z" (by decide) (by decide)).trans
    (by decide)

/-- C1 fails on the code at a concrete input: with `correctAnswers = ["Apple"]`
and `wrongAnswers = ["apple"]`, shuffle outcome `["apple", "Apple"]` and input
`"a"`, the letter `a` resolves the selection to option `"apple"`, whose text IS
a case-insensitive member of `correctAnswers` — the claim demands score 1 —
yet `ask` returns 0, because line 93 tests exact membership
`option_list[...] in self.answers`. -/
theorem mcq_scoring_c1_counterexample :
    (["apple", "Apple"] : List String).Perm (["Apple"] ++ ["apple"])
    ∧ (option_list ["apple", "Apple"]).lookup (lower "a") = some "apple"
    ∧ ((["Apple"] : List String).map lower).contains (lower "apple") = true
    ∧ mcqLoop ["Apple"] (option_list ["apple", "Apple"]) false ["a"]
        = LoopResult.returned 0 [] := by
  decide

/-- C1 amended: once a selection is resolved, the score depends on how it was
resolved.  A letter-key selection returns 1 exactly when the selected option's
text is an exact (case-sensitive) member of `correctAnswers`, and 0 otherwise;
a full-text selection returns 1 exactly when the selected option's text
(equivalently, the input) is a case-insensitive member of `correctAnswers`,
and 0 otherwise; either way the loop returns immediately, consuming only that
line. -/
theorem mcq_scoring_characterisation (answers : List String) (ol : List (String × String))
    (ua : String) (inputs : List String) :
    (∀ selected, ol.lookup (lower ua) = some selected →
      ((mcqLoop answers ol false (ua :: inputs) = LoopResult.returned 1 inputs
          ↔ selected ∈ answers)
        ∧ (mcqLoop answers ol false (ua :: inputs) = LoopResult.returned 0 inputs
          ↔ selected ∉ answers)))
    ∧ (ol.lookup (lower ua) = none →
      ∀ selected, selected ∈ ol.map Prod.snd → lower selected = lower ua →
        ((mcqLoop answers ol false (ua :: inputs) = LoopResult.returned 1 inputs
            ↔ ∃ a, a ∈ answers ∧ lower a = lower selected)
          ∧ (mcqLoop answers ol false (ua :: inputs) = LoopResult.returned 0 inputs
            ↔ ¬ ∃ a, a ∈ answers ∧ lower a = lower selected))) := by
  constructor
  · intro selected hsel
    by_cases hc : answers.contains selected
    · have hloop : mcqLoop answers ol false (ua :: inputs) = LoopResult.returned 1 inputs := by
        simp only [mcqLoop, mcqIter, hsel, if_pos hc]
      have hmem : selected ∈ answers := (contains_iff_mem answers selected).mp hc
      rw [hloop]
      exact ⟨⟨fun _ => hmem, fun _ => rfl⟩,
        ⟨fun h => by simp at h, fun hm => absurd hmem hm⟩⟩
    · have hloop : mcqLoop answers ol false (ua :: inputs) = LoopResult.returned 0 inputs := by
        simp only [mcqLoop, mcqIter, hsel, if_neg hc]
      have hmem : selected ∉ answers := fun hm => hc ((contains_iff_mem answers selected).mpr hm)
      rw [hloop]
      exact ⟨⟨fun h => by simp at h, fun hm => absurd hm hmem⟩,
        ⟨fun _ => hmem, fun _ => rfl⟩⟩
  · intro hnone selected hselmem hlow
    have htext : ((ol.map Prod.snd).map lower).contains (lower ua) = true :=
      (contains_map_lower_iff (ol.map Prod.snd) (lower ua)).mpr ⟨selected, hselmem, hlow⟩
    by_cases hc : (answers.map lower).contains (lower ua)
    · have hloop : mcqLoop answers ol false (ua :: inputs) = LoopResult.returned 1 inputs := by
        simp only [mcqLoop, mcqIter, hnone, if_pos htext, if_pos hc]
      have hex : ∃ a, a ∈ answers ∧ lower a = lower selected := by
        obtain ⟨a, ha, he⟩ := (contains_map_lower_iff answers (lower ua)).mp hc
        exact ⟨a, ha, he.trans hlow.symm⟩
      rw [hloop]
      exact ⟨⟨fun _ => hex, fun _ => rfl⟩,
        ⟨fun h => by simp at h, fun hm => absurd hex hm⟩⟩
    · have hloop : mcqLoop answers ol false (ua :: inputs) = LoopResult.returned 0 inputs := by
        simp only [mcqLoop, mcqIter, hnone, if_pos htext, if_neg hc]
      have hex : ¬ ∃ a, a ∈ answers ∧ lower a = lower selected := by
        rintro ⟨a, ha, he⟩
        exact hc ((contains_map_lower_iff answers (lower ua)).mpr ⟨a, ha, he.trans hlow⟩)
      rw [hloop]
      exact ⟨⟨fun h => by simp at h, fun hm => absurd hm hex⟩,
        ⟨fun _ => hex, fun _ => rfl⟩⟩

/-- Closed instance of `mcq_scoring_characterisation`: typing the full text
`"APPLE"` for the presented option `"Apple"` (a correct answer) scores 1. -/
theorem mcq_scoring_characterisation_witness :
    mcqLoop ["Apple"] (option_list ["Banana", "Apple"]) false ["APPLE"]
      = LoopResult.returned 1 [] :=
  (((mcq_scoring_characterisation ["Apple"] (option_list ["Banana", "Apple"]) "APPLE" []).2
      (by decide) "Apple" (by decide) (by decide)).1).mpr ⟨"Apple", by decide, by decide⟩

/-- C9: a `MultiChoiceQuestion` with both answer lists empty is validly
constructed, every shuffle outcome gives an empty option assignment, and `ask`
never returns: the validation loop consumes every finite input sequence with
re-prompts only, for any prompt and any inputs. -/
theorem mcq_empty_options_never_returns (question : String) (perm : List String)
    (hperm : perm.Perm (([] : List String) ++ ([] : List String))) :
    (∃ mcq, MultiChoiceQuestion.init question [] [] = Except.ok mcq)
    ∧ option_list perm = []
    ∧ ∀ inputs, mcqLoop [] (option_list perm) false inputs = LoopResult.outOfInput := by
  have hnil : perm = [] := hperm.eq_nil
  subst hnil
  refine ⟨⟨⟨question, [], []⟩, rfl⟩, rfl, ?_⟩
  intro inputs
  induction inputs with
  | nil => rfl
  | cons ua rest ih =>
    have hstep : mcqIter [] (option_list []) false ua = (false, none) := rfl
    simp only [mcqLoop, hstep]
    exact ih

/-- Closed instance of `mcq_empty_options_never_returns`: three attempts on a
zero-option question all fail to resolve. -/
theorem mcq_empty_options_never_returns_witness :
    mcqLoop [] (option_list []) false ["a", "apple", ""] = LoopResult.outOfInput :=
  (mcq_empty_options_never_returns "Q" [] (List.Perm.refl _)).2.2 ["a", "apple", ""]

/-- C10: the statements after the validation loop (lines 111–112) are dead
code — a loop-body run that sets `valid_input` to true always returns from
inside the loop, so starting from `valid_input = false` the loop can end in a
`return` or by exhausting input, but never by its condition failing. -/
theorem mcq_loop_no_fallthrough (answers : List String) (ol : List (String × String)) :
    (∀ ua, (mcqIter answers ol false ua).1 = true
      → ((mcqIter answers ol false ua).2).isSome = true)
    ∧ ∀ inputs rest, mcqLoop answers ol false inputs ≠ LoopResult.exitedLoop rest := by
  have hiter : ∀ ua vi, mcqIter answers ol false ua = (vi, none) → vi = false := by
    intro ua vi h
    unfold mcqIter at h
    split at h
    · split at h <;> simp at h
    · split at h
      · split at h <;> simp at h
      · injection h with h1 _
        exact h1.symm
  constructor
  · intro ua hvalid
    rcases hit : mcqIter answers ol false ua with ⟨vi, _ | score⟩
    · have hv : vi = false := hiter ua vi hit
      rw [hit] at hvalid
      rw [hv] at hvalid
      exact absurd hvalid (by simp)
    · rfl
  · intro inputs
    induction inputs with
    | nil => intro rest h; exact LoopResult.noConfusion h
    | cons ua tl ih =>
      intro rest h
      rcases hit : mcqIter answers ol false ua with ⟨vi, _ | score⟩
      · have hv : vi = false := hiter ua vi hit
        simp only [mcqLoop, hit, hv] at h
        exact ih rest h
      · simp only [mcqLoop, hit] at h
        exact LoopResult.noConfusion h

/-- Closed instance of `mcq_loop_no_fallthrough`: a run with one invalid
attempt does not reach the dead statements. -/
theorem mcq_loop_no_fallthrough_witness :
    mcqLoop ["x"] [("a", "x")] false ["zzz"] ≠ LoopResult.exitedLoop [] :=
  (mcq_loop_no_fallthrough ["x"] [("a", "x")]).2 ["zzz"] []

/-- Writing a freshly appended cell leaves every previously existing cell
readable unchanged. -/
theorem heapGet_append_set (h : Heap) (v w : List String) (r : Nat) (hr : r < h.length) :
    heapGet (heapSet (h ++ [v]) h.length w) r = heapGet h r := by
  unfold heapGet heapSet
  rw [List.getD_eq_getElem?_getD, List.getD_eq_getElem?_getD,
    List.getElem?_set_ne (Nat.ne_of_gt hr), List.getElem?_append_left hr]

/-- C8: `ask` leaves every stored field unchanged.  `Question.ask` passes the
heap through untouched, and `MultiChoiceQuestion.ask` writes only the freshly
allocated `all_options` cell (Python's list `+` copies before `shuffle`
mutates), so `answers` and `wrong_answers` read the same before and after the
call, for every shuffle outcome and every input; the `question` field is not
assigned anywhere in either method. -/
theorem ask_preserves_stored_fields (q : MCQObj) (h : Heap) (shuffled inputs : List String)
    (ha : q.answersRef < h.length) (hw : q.wrongAnswersRef < h.length)
    (hperm : shuffled.Perm (heapGet h q.answersRef ++ heapGet h q.wrongAnswersRef)) :
    heapGet (MCQObj.ask q h shuffled inputs).1 q.answersRef = heapGet h q.answersRef
    ∧ heapGet (MCQObj.ask q h shuffled inputs).1 q.wrongAnswersRef = heapGet h q.wrongAnswersRef
    ∧ ∀ (fq : QuestionObj) (h' : Heap) (ins : List String), (QuestionObj.ask fq h' ins).1 = h' :=
  ⟨heapGet_append_set h _ shuffled _ ha, heapGet_append_set h _ shuffled _ hw,
    fun _ _ _ => rfl⟩

/-- Closed instance of `ask_preserves_stored_fields`: on a concrete two-cell
heap, both stored lists survive an `ask` with a concrete shuffle outcome. -/
theorem ask_preserves_stored_fields_witness :
    heapGet (MCQObj.ask ⟨"Q", 0, 1⟩ [["4"], ["5"]] ["5", "4"] ["a"]).1 0
        = heapGet [["4"], ["5"]] 0
    ∧ heapGet (MCQObj.ask ⟨"Q", 0, 1⟩ [["4"], ["5"]] ["5", "4"] ["a"]).1 1
        = heapGet [["4"], ["5"]] 1 :=
  ⟨(ask_preserves_stored_fields ⟨"Q", 0, 1⟩ [["4"], ["5"]] ["5", "4"] ["a"]
      (by decide) (by decide) (by decide)).1,
    (ask_preserves_stored_fields ⟨"Q", 0, 1⟩ [["4"], ["5"]] ["5", "4"] ["a"]
      (by decide) (by decide) (by decide)).2.1⟩

end QuizUtils
